import Mathlib

/-!
# HardReset_DHT: a verification development

Shallow embedding of `src/HardReset_DHT.h` and `src/HardReset_DHT.cpp`.

* The object is a record of its seven data members.
* Machine integers are natural numbers; every place where the C++ code can wrap
  (`uint8_t += 1`, `uint32_t - uint32_t`, the `uint32_t` that receives
  `millis()`) carries an explicit reduction modulo `2 ^ w`.
* The Arduino calls `pinMode` and `digitalWrite` are recorded as a list of
  effects returned next to the new object state.
* `millis()` is an input of `resetVCC`.
* A `float` is abstracted to what `isnan` can observe of it.
-/

namespace HardResetDHT

/-! ## Data model -/

/-- The constant `#define MIN_INTERVAL 2001` of `HardReset_DHT.cpp`. -/
def MIN_INTERVAL : Nat := 2001

/-- Logic levels of the Arduino core. -/
inductive Level where
  | LOW
  | HIGH
  deriving DecidableEq, Repr

/-- Calls into the Arduino core made by the library, in program order.
`pinMode pin` is always `pinMode(pin, OUTPUT)`. -/
inductive Effect where
  | pinMode (pin : Nat)
  | digitalWrite (pin : Nat) (level : Level)
  deriving DecidableEq, Repr

/-- A `float` argument, as far as `isnan` distinguishes values: a NaN, an
infinity, or a finite number. -/
inductive Reading where
  | nan
  | inf (negative : Bool)
  | finite (value : ℚ)
  deriving DecidableEq

/-- The `isnan` of the C library. -/
def isnan : Reading → Bool
  | Reading.nan => true
  | Reading.inf _ => false
  | Reading.finite _ => false

/-- The data members of `class HardReset` (`HardReset_DHT.h`, lines 24-31). -/
structure HardReset where
  /-- `uint8_t resets` (public). -/
  resets : Nat
  /-- `uint8_t _VCC_pin`. -/
  _VCC_pin : Nat
  /-- `uint8_t _try_count`. -/
  _try_count : Nat
  /-- `uint8_t _max_tries`. -/
  _max_tries : Nat
  /-- `uint16_t _off_interval = 2100`. -/
  _off_interval : Nat
  /-- `uint32_t _ms_last_reset = 0`. -/
  _ms_last_reset : Nat
  /-- `bool _VCC_on = true`. -/
  _VCC_on : Bool
  deriving DecidableEq, Repr

/-- Every member holds a value of its C++ type. -/
def HardReset.InRange (s : HardReset) : Prop :=
  s.resets < 2 ^ 8 ∧ s._VCC_pin < 2 ^ 8 ∧ s._try_count < 2 ^ 8 ∧ s._max_tries < 2 ^ 8 ∧
    s._off_interval < 2 ^ 16 ∧ s._ms_last_reset < 2 ^ 32

instance (s : HardReset) : Decidable s.InRange := by
  unfold HardReset.InRange; infer_instance

/-! ## Operations -/

/-- Subtraction of two `uint32_t` values: `a - b` modulo `2 ^ 32`. -/
def sub32 (a b : Nat) : Nat :=
  (a % 2 ^ 32 + (2 ^ 32 - b % 2 ^ 32)) % 2 ^ 32

/-- The constructor `HardReset::HardReset` (`HardReset_DHT.cpp`, lines 55-65),
named `construct` because the record already owns the name `HardReset`.

The default member initialisers of the header set `_off_interval = 2100`,
`_ms_last_reset = 0` and `_VCC_on = true`. The members `_try_count` and
`resets` have no initialiser and are not assigned in the body: they keep the
content of the storage the object is built in, given here as `try_count0` and
`resets0` (both `0` for an object with static storage duration). -/
def HardReset.construct (try_count0 resets0 : Nat) (VCC_pin off_interval max_tries : Nat) :
    HardReset × List Effect :=
  ({ resets := resets0
     _VCC_pin := VCC_pin
     _try_count := try_count0
     _max_tries := max_tries
     _off_interval := if off_interval > MIN_INTERVAL then off_interval else 2100
     _ms_last_reset := 0
     _VCC_on := true },
   [Effect.pinMode VCC_pin])

/-- The method `HardReset::begin` (`HardReset_DHT.cpp`, lines 72-76). -/
def HardReset.begin (s : HardReset) : HardReset × List Effect :=
  (s, [Effect.pinMode s._VCC_pin, Effect.digitalWrite s._VCC_pin Level.HIGH])

/-- The method `HardReset::resetVCC` (`HardReset_DHT.cpp`, lines 83-114);
`millis` is the value returned by the call `millis()`. -/
def HardReset.resetVCC (s : HardReset) (reading : Reading) (millis : Nat) :
    HardReset × List Effect :=
  if !isnan reading then
    if s._try_count > 0 then
      ({ s with _try_count := 0 }, [])
    else
      (s, [])
  else
    let current_time := millis % 2 ^ 32
    if sub32 current_time s._ms_last_reset ≥ s._off_interval then
      let tries_available :=
        if s._max_tries ≠ 0 then decide (s._try_count < s._max_tries) else true
      if tries_available then
        if s._VCC_on then
          ({ s with _VCC_on := false, _ms_last_reset := current_time },
            [Effect.digitalWrite s._VCC_pin Level.LOW])
        else
          ({ s with _VCC_on := true
                    _try_count := (s._try_count + 1) % 2 ^ 8
                    resets := (s.resets + 1) % 2 ^ 8
                    _ms_last_reset := current_time },
            [Effect.digitalWrite s._VCC_pin Level.HIGH])
      else
        ({ s with _ms_last_reset := current_time }, [])
    else
      (s, [])

/-! ## Sequences of calls -/

/-- One call made by the sketch on an already constructed object. -/
inductive Call where
  | begin
  | resetVCC (reading : Reading) (millis : Nat)
  deriving DecidableEq

/-- Perform one call. -/
def HardReset.call (s : HardReset) : Call → HardReset × List Effect
  | Call.begin => s.begin
  | Call.resetVCC reading millis => s.resetVCC reading millis

/-- Perform a sequence of calls in order, collecting the effects in program order. -/
def HardReset.run (s : HardReset) : List Call → HardReset × List Effect
  | [] => (s, [])
  | c :: cs => ((s.call c).1.run cs |>.1, (s.call c).2 ++ ((s.call c).1.run cs).2)

/-- The levels written with `digitalWrite`, in program order. -/
def writes : List Effect → List Level
  | [] => []
  | Effect.pinMode _ :: es => writes es
  | Effect.digitalWrite _ level :: es => level :: writes es

/-- A run of `resetVCC` calls that all receive a NaN, one per timestamp. -/
def nanCalls (ts : List Nat) : List Call :=
  ts.map (fun t => Call.resetVCC Reading.nan t)

/-- The object after `k` calls `resetVCC(NAN)` made at the clock values
`I, 2 * I, ..., k * I`, each taken modulo `2 ^ 32`. -/
def nanStream (s : HardReset) (I : Nat) : Nat → HardReset
  | 0 => s
  | k + 1 => ((nanStream s I k).resetVCC Reading.nan ((k + 1) * I % 2 ^ 32)).1

/-- The effects of call number `k` (counted from 1) of the stream of `nanStream`. -/
def nanStreamEffects (s : HardReset) (I : Nat) (k : Nat) : List Effect :=
  ((nanStream s I (k - 1)).resetVCC Reading.nan (k * I % 2 ^ 32)).2

/-- The bound on the retry counter: `_try_count <= _max_tries` unless
`_max_tries` is the sentinel 0. -/
def HardReset.TriesBounded (s : HardReset) : Prop :=
  s._max_tries ≠ 0 → s._try_count ≤ s._max_tries

instance (s : HardReset) : Decidable s.TriesBounded := by
  unfold HardReset.TriesBounded; infer_instance

/-- The logic level that stands for a value of `_VCC_on`: `HIGH` for true,
`LOW` for false. -/
def levelOf (flag : Bool) : Level :=
  if flag then Level.HIGH else Level.LOW

/-- A sequence of `resetVCC` calls only, each given by its reading and the
value `millis()` returns in it. -/
def resetCalls (rs : List (Reading × Nat)) : List Call :=
  rs.map (fun c => Call.resetVCC c.1 c.2)

/-- Perform a sequence of calls and list, for each call in order, the object
after the call and the effects of that call alone. -/
def HardReset.trace (s : HardReset) : List Call → List (HardReset × List Effect)
  | [] => []
  | c :: cs => s.call c :: (s.call c).1.trace cs

/-- The clock values of those calls, in a sequence of `resetVCC` calls, that
write to the pin. -/
def writeTimes (s : HardReset) : List (Reading × Nat) → List Nat
  | [] => []
  | c :: cs =>
    if writes (s.resetVCC c.1 c.2).2 ≠ [] then
      c.2 :: writeTimes (s.resetVCC c.1 c.2).1 cs
    else
      writeTimes (s.resetVCC c.1 c.2).1 cs

/-- The calls of the scenario with two retries: NaN readings at the clock
values `0, I, 2 * I, ..., 6 * I`, then one call with `reading` at `millis`, then
a NaN at `7 * I`. -/
def scenarioCalls (I : Nat) (reading : Reading) (millis : Nat) : List Call :=
  nanCalls [0, I, 2 * I, 3 * I, 4 * I, 5 * I, 6 * I] ++
    [Call.resetVCC reading millis, Call.resetVCC Reading.nan (7 * I)]

/-- The number of `HIGH` writes made by the `resetVCC` calls of a sequence; the
write of `begin()` is not counted. -/
def highWrites (s : HardReset) : List Call → Nat
  | [] => 0
  | Call.begin :: cs => highWrites s.begin.1 cs
  | Call.resetVCC reading millis :: cs =>
    (writes (s.resetVCC reading millis).2).count Level.HIGH
      + highWrites (s.resetVCC reading millis).1 cs

/-! ## The five paths through `resetVCC` -/

/-- Path of lines 85-89: the reading is a number. -/
theorem resetVCC_of_valid (s : HardReset) (reading : Reading) (millis : Nat)
    (hvalid : isnan reading = false) :
    s.resetVCC reading millis =
      if s._try_count > 0 then ({ s with _try_count := 0 }, []) else (s, []) := by
  unfold HardReset.resetVCC
  simp only [hvalid, Bool.not_false, if_true]

/-- Path where the test of line 94 fails: nothing happens. -/
theorem resetVCC_of_gate_closed (s : HardReset) (reading : Reading) (millis : Nat)
    (hnan : isnan reading = true)
    (hearly : sub32 (millis % 2 ^ 32) s._ms_last_reset < s._off_interval) :
    s.resetVCC reading millis = (s, []) := by
  unfold HardReset.resetVCC
  have hgate : ¬ (sub32 (millis % 2 ^ 32) s._ms_last_reset ≥ s._off_interval) := by omega
  simp only [hnan, Bool.not_true, Bool.false_eq_true, if_false]
  rw [if_neg hgate]

/-- Path where the test of line 94 holds and `tries_available` is false: only
line 111 runs. -/
theorem resetVCC_of_no_tries (s : HardReset) (reading : Reading) (millis : Nat)
    (hnan : isnan reading = true)
    (hgate : sub32 (millis % 2 ^ 32) s._ms_last_reset ≥ s._off_interval)
    (hmax : s._max_tries ≠ 0) (hfull : ¬ s._try_count < s._max_tries) :
    s.resetVCC reading millis = ({ s with _ms_last_reset := millis % 2 ^ 32 }, []) := by
  unfold HardReset.resetVCC
  simp only [hnan, Bool.not_true, Bool.false_eq_true, if_false]
  rw [if_pos hgate]
  simp only [hmax, hfull, ne_eq, not_false_eq_true, if_true, decide_False, Bool.false_eq_true,
    if_false]

/-- Path of lines 102-103: the pin is switched off. -/
theorem resetVCC_of_switch_off (s : HardReset) (reading : Reading) (millis : Nat)
    (hnan : isnan reading = true)
    (hgate : sub32 (millis % 2 ^ 32) s._ms_last_reset ≥ s._off_interval)
    (havail : s._max_tries = 0 ∨ s._try_count < s._max_tries) (hon : s._VCC_on = true) :
    s.resetVCC reading millis =
      ({ s with _VCC_on := false, _ms_last_reset := millis % 2 ^ 32 },
        [Effect.digitalWrite s._VCC_pin Level.LOW]) := by
  unfold HardReset.resetVCC
  simp only [hnan, Bool.not_true, Bool.false_eq_true, if_false]
  rw [if_pos hgate]
  by_cases hmax : s._max_tries = 0
  · simp only [hmax, ne_eq, not_true_eq_false, if_false, if_true, hon]
  · have hlt : s._try_count < s._max_tries := by omega
    simp only [hmax, hlt, ne_eq, not_false_eq_true, if_true, decide_True, hon]

/-- Path of lines 105-108: the pin is switched on and both counters step. -/
theorem resetVCC_of_switch_on (s : HardReset) (reading : Reading) (millis : Nat)
    (hnan : isnan reading = true)
    (hgate : sub32 (millis % 2 ^ 32) s._ms_last_reset ≥ s._off_interval)
    (havail : s._max_tries = 0 ∨ s._try_count < s._max_tries) (hoff : s._VCC_on = false) :
    s.resetVCC reading millis =
      ({ s with _VCC_on := true
                _try_count := (s._try_count + 1) % 2 ^ 8
                resets := (s.resets + 1) % 2 ^ 8
                _ms_last_reset := millis % 2 ^ 32 },
        [Effect.digitalWrite s._VCC_pin Level.HIGH]) := by
  unfold HardReset.resetVCC
  simp only [hnan, Bool.not_true, Bool.false_eq_true, if_false]
  rw [if_pos hgate]
  by_cases hmax : s._max_tries = 0
  · simp only [hmax, ne_eq, not_true_eq_false, if_false, if_true, hoff, Bool.false_eq_true]
  · have hlt : s._try_count < s._max_tries := by omega
    simp only [hmax, hlt, ne_eq, not_false_eq_true, if_true, decide_True, hoff,
      Bool.false_eq_true, if_false]

/-- The four outcomes of `resetVCC` on a NaN. -/
theorem resetVCC_nan_cases (s : HardReset) (millis : Nat) :
    s.resetVCC Reading.nan millis = (s, []) ∨
    (s._max_tries ≠ 0 ∧ ¬ s._try_count < s._max_tries ∧
      s.resetVCC Reading.nan millis = ({ s with _ms_last_reset := millis % 2 ^ 32 }, [])) ∨
    ((s._max_tries = 0 ∨ s._try_count < s._max_tries) ∧ s._VCC_on = true ∧
      s.resetVCC Reading.nan millis =
        ({ s with _VCC_on := false, _ms_last_reset := millis % 2 ^ 32 },
          [Effect.digitalWrite s._VCC_pin Level.LOW])) ∨
    ((s._max_tries = 0 ∨ s._try_count < s._max_tries) ∧ s._VCC_on = false ∧
      s.resetVCC Reading.nan millis =
        ({ s with _VCC_on := true
                  _try_count := (s._try_count + 1) % 2 ^ 8
                  resets := (s.resets + 1) % 2 ^ 8
                  _ms_last_reset := millis % 2 ^ 32 },
          [Effect.digitalWrite s._VCC_pin Level.HIGH])) := by
  by_cases hgate : sub32 (millis % 2 ^ 32) s._ms_last_reset ≥ s._off_interval
  · by_cases havail : s._max_tries = 0 ∨ s._try_count < s._max_tries
    · by_cases hon : s._VCC_on = true
      · exact Or.inr (Or.inr (Or.inl
          ⟨havail, hon, resetVCC_of_switch_off s Reading.nan millis rfl hgate havail hon⟩))
      · have hoff : s._VCC_on = false := by simpa using hon
        exact Or.inr (Or.inr (Or.inr
          ⟨havail, hoff, resetVCC_of_switch_on s Reading.nan millis rfl hgate havail hoff⟩))
    · have hmax : s._max_tries ≠ 0 := fun h => havail (Or.inl h)
      have hfull : ¬ s._try_count < s._max_tries := fun h => havail (Or.inr h)
      exact Or.inr (Or.inl ⟨hmax, hfull, resetVCC_of_no_tries s Reading.nan millis rfl hgate hmax hfull⟩)
  · exact Or.inl (resetVCC_of_gate_closed s Reading.nan millis rfl (by omega))

/-! ## Sequences -/

theorem run_append (s : HardReset) (xs ys : List Call) :
    s.run (xs ++ ys) = (((s.run xs).1.run ys).1, (s.run xs).2 ++ ((s.run xs).1.run ys).2) := by
  induction xs generalizing s with
  | nil => simp [HardReset.run]
  | cons c cs ih =>
    show (((s.call c).1.run (cs ++ ys)).1, (s.call c).2 ++ ((s.call c).1.run (cs ++ ys)).2) = _
    rw [ih]
    simp only [HardReset.run, List.append_assoc]

theorem writes_append (es fs : List Effect) : writes (es ++ fs) = writes es ++ writes fs := by
  induction es with
  | nil => rfl
  | cons e es ih =>
    cases e with
    | pinMode pin => simpa [writes] using ih
    | digitalWrite pin level => simp [writes, ih]

theorem nanCalls_append (xs ys : List Nat) : nanCalls (xs ++ ys) = nanCalls xs ++ nanCalls ys := by
  simp [nanCalls]

/-- One NaN call under a retry limit: the limit is kept and the retry counter
grows by the number of `HIGH` writes. -/
theorem nan_step_limited (s : HardReset) (millis : Nat)
    (h8 : s._max_tries < 2 ^ 8) (hN : 0 < s._max_tries) (hle : s._try_count ≤ s._max_tries) :
    (s.resetVCC Reading.nan millis).1._max_tries = s._max_tries ∧
    (s.resetVCC Reading.nan millis).1._try_count ≤ s._max_tries ∧
    (writes (s.resetVCC Reading.nan millis).2).count Level.HIGH + s._try_count
      = (s.resetVCC Reading.nan millis).1._try_count := by
  rcases resetVCC_nan_cases s millis with h | ⟨_, _, h⟩ | ⟨_, _, h⟩ | ⟨havail, _, h⟩
  · rw [h]; simp [writes, hle]
  · rw [h]; simp [writes, hle]
  · rw [h]; simp [writes, hle]
  · rw [h]
    have hlt : s._try_count < s._max_tries := by omega
    have hmod : (s._try_count + 1) % 2 ^ 8 = s._try_count + 1 :=
      Nat.mod_eq_of_lt (by omega)
    refine ⟨rfl, ?_, ?_⟩
    · show (s._try_count + 1) % 2 ^ 8 ≤ s._max_tries
      rw [hmod]; omega
    · show (writes [Effect.digitalWrite s._VCC_pin Level.HIGH]).count Level.HIGH + s._try_count
        = (s._try_count + 1) % 2 ^ 8
      rw [hmod]
      simp only [writes, List.count_cons_self, List.count_nil]
      omega

/-- One NaN call with the retries used up: no effect, and only the timer may move. -/
theorem nan_step_exhausted (s : HardReset) (millis : Nat)
    (hN : 0 < s._max_tries) (hfull : s._try_count = s._max_tries) :
    (s.resetVCC Reading.nan millis).2 = [] ∧
    (s.resetVCC Reading.nan millis).1._max_tries = s._max_tries ∧
    (s.resetVCC Reading.nan millis).1._try_count = s._try_count ∧
    (s.resetVCC Reading.nan millis).1.resets = s.resets ∧
    (s.resetVCC Reading.nan millis).1._VCC_on = s._VCC_on := by
  rcases resetVCC_nan_cases s millis with h | ⟨_, _, h⟩ | ⟨havail, _, _⟩ | ⟨havail, _, _⟩
  · rw [h]; exact ⟨rfl, rfl, rfl, rfl, rfl⟩
  · rw [h]; exact ⟨rfl, rfl, rfl, rfl, rfl⟩
  · omega
  · omega

theorem nan_run_limited (ts : List Nat) : ∀ (s : HardReset),
    s._max_tries < 2 ^ 8 → 0 < s._max_tries → s._try_count ≤ s._max_tries →
    (s.run (nanCalls ts)).1._max_tries = s._max_tries ∧
    (s.run (nanCalls ts)).1._try_count ≤ s._max_tries ∧
    (writes (s.run (nanCalls ts)).2).count Level.HIGH + s._try_count
      = (s.run (nanCalls ts)).1._try_count := by
  induction ts with
  | nil => intro s _ _ hle; simp [nanCalls, HardReset.run, writes, hle]
  | cons t ts ih =>
    intro s h8 hN hle
    obtain ⟨hm, hl, hc⟩ := nan_step_limited s t h8 hN hle
    obtain ⟨hm2, hl2, hc2⟩ := ih (s.resetVCC Reading.nan t).1 (by omega) (by omega) (by omega)
    simp only [nanCalls, List.map_cons, HardReset.run, HardReset.call] at hm2 hl2 hc2 ⊢
    refine ⟨by omega, by omega, ?_⟩
    rw [writes_append, List.count_append]
    omega

theorem nan_run_exhausted (ts : List Nat) : ∀ (s : HardReset),
    0 < s._max_tries → s._try_count = s._max_tries →
    (s.run (nanCalls ts)).2 = [] ∧
    (s.run (nanCalls ts)).1._try_count = s._try_count ∧
    (s.run (nanCalls ts)).1.resets = s.resets ∧
    (s.run (nanCalls ts)).1._VCC_on = s._VCC_on := by
  induction ts with
  | nil => intro s _ _; simp [nanCalls, HardReset.run]
  | cons t ts ih =>
    intro s hN hfull
    obtain ⟨he, hm, ht, hr, hv⟩ := nan_step_exhausted s t hN hfull
    obtain ⟨he2, ht2, hr2, hv2⟩ := ih (s.resetVCC Reading.nan t).1 (by omega) (by omega)
    simp only [nanCalls, List.map_cons, HardReset.run, HardReset.call] at he2 ht2 hr2 hv2 ⊢
    refine ⟨by rw [he, he2]; rfl, by omega, by omega, by rw [hv2, hv]⟩

/-! ## Frame lemmas for single calls and runs -/

/-- The members a call can never change, and the two ways `resets` can move. -/
theorem call_frame (s : HardReset) (c : Call) :
    (s.call c).1._off_interval = s._off_interval ∧
    (s.call c).1._max_tries = s._max_tries ∧
    (s.call c).1._VCC_pin = s._VCC_pin ∧
    ((s.call c).1.resets = s.resets ∨ (s.call c).1.resets = (s.resets + 1) % 2 ^ 8) := by
  cases c with
  | begin => exact ⟨rfl, rfl, rfl, Or.inl rfl⟩
  | resetVCC reading millis =>
    show (s.resetVCC reading millis).1._off_interval = _ ∧ (s.resetVCC reading millis).1._max_tries = _ ∧
      (s.resetVCC reading millis).1._VCC_pin = _ ∧
      ((s.resetVCC reading millis).1.resets = _ ∨ (s.resetVCC reading millis).1.resets = _)
    cases reading with
    | nan =>
      rcases resetVCC_nan_cases s millis with h | ⟨_, _, h⟩ | ⟨_, _, h⟩ | ⟨_, _, h⟩
      · rw [h]; exact ⟨rfl, rfl, rfl, Or.inl rfl⟩
      · rw [h]; exact ⟨rfl, rfl, rfl, Or.inl rfl⟩
      · rw [h]; exact ⟨rfl, rfl, rfl, Or.inl rfl⟩
      · rw [h]; exact ⟨rfl, rfl, rfl, Or.inr rfl⟩
    | inf negative =>
      rw [resetVCC_of_valid s (Reading.inf negative) millis rfl]
      split <;> exact ⟨rfl, rfl, rfl, Or.inl rfl⟩
    | finite value =>
      rw [resetVCC_of_valid s (Reading.finite value) millis rfl]
      split <;> exact ⟨rfl, rfl, rfl, Or.inl rfl⟩

theorem run_off_interval (cs : List Call) : ∀ (s : HardReset),
    (s.run cs).1._off_interval = s._off_interval := by
  induction cs with
  | nil => intro s; rfl
  | cons c cs ih =>
    intro s
    show ((s.call c).1.run cs).1._off_interval = _
    rw [ih, (call_frame s c).1]

theorem run_resets_bounds (cs : List Call) : ∀ (s : HardReset),
    s.resets + cs.length < 2 ^ 8 →
    s.resets ≤ (s.run cs).1.resets ∧ (s.run cs).1.resets ≤ s.resets + cs.length := by
  induction cs with
  | nil => intro s _; exact ⟨Nat.le_refl _, Nat.le_refl _⟩
  | cons c cs ih =>
    intro s hlen
    simp only [List.length_cons] at hlen ⊢
    show s.resets ≤ ((s.call c).1.run cs).1.resets ∧
      ((s.call c).1.run cs).1.resets ≤ s.resets + (cs.length + 1)
    have hstep : (s.call c).1.resets = s.resets ∨ (s.call c).1.resets = s.resets + 1 := by
      rcases (call_frame s c).2.2.2 with h | h
      · exact Or.inl h
      · right; rw [h]; exact Nat.mod_eq_of_lt (by omega)
    obtain ⟨h1, h2⟩ := ih (s.call c).1 (by omega)
    omega

/-- A `resetVCC` call either leaves `resets` alone and writes no `HIGH`, or
writes exactly `HIGH` and steps `resets` by 1 modulo `2 ^ 8`. -/
theorem resetVCC_resets_cases (s : HardReset) (reading : Reading) (millis : Nat) :
    ((s.resetVCC reading millis).1.resets = s.resets ∧
      (writes (s.resetVCC reading millis).2).count Level.HIGH = 0 ∧
      writes (s.resetVCC reading millis).2 ≠ [Level.HIGH]) ∨
    ((s.resetVCC reading millis).1.resets = (s.resets + 1) % 2 ^ 8 ∧
      (writes (s.resetVCC reading millis).2).count Level.HIGH = 1 ∧
      writes (s.resetVCC reading millis).2 = [Level.HIGH]) := by
  cases reading with
  | nan =>
    rcases resetVCC_nan_cases s millis with h | ⟨_, _, h⟩ | ⟨_, _, h⟩ | ⟨_, _, h⟩
    · rw [h]; exact Or.inl ⟨rfl, rfl, by simp [writes]⟩
    · rw [h]; exact Or.inl ⟨rfl, rfl, by simp [writes]⟩
    · rw [h]; exact Or.inl ⟨rfl, rfl, by simp [writes]⟩
    · rw [h]; exact Or.inr ⟨rfl, rfl, rfl⟩
  | inf negative =>
    rw [resetVCC_of_valid s (Reading.inf negative) millis rfl]
    split <;> exact Or.inl ⟨rfl, rfl, by simp [writes]⟩
  | finite value =>
    rw [resetVCC_of_valid s (Reading.finite value) millis rfl]
    split <;> exact Or.inl ⟨rfl, rfl, by simp [writes]⟩

/-- Over any sequence of calls `resets` moves by the number of `HIGH` writes of
`resetVCC`, modulo `2 ^ 8`. -/
theorem run_resets_eq (cs : List Call) : ∀ (s : HardReset), s.resets < 2 ^ 8 →
    (s.run cs).1.resets = (s.resets + highWrites s cs) % 2 ^ 8 := by
  induction cs with
  | nil =>
    intro s h8
    show s.resets = (s.resets + 0) % 2 ^ 8
    rw [Nat.add_zero, Nat.mod_eq_of_lt h8]
  | cons c cs ih =>
    intro s h8
    cases c with
    | begin =>
      show (s.begin.1.run cs).1.resets = (s.resets + highWrites s.begin.1 cs) % 2 ^ 8
      exact ih s.begin.1 h8
    | resetVCC reading millis =>
      show ((s.resetVCC reading millis).1.run cs).1.resets
        = (s.resets + ((writes (s.resetVCC reading millis).2).count Level.HIGH
            + highWrites (s.resetVCC reading millis).1 cs)) % 2 ^ 8
      rcases resetVCC_resets_cases s reading millis with ⟨hr, hc, _⟩ | ⟨hr, hc, _⟩
      · rw [ih (s.resetVCC reading millis).1 (by rw [hr]; exact h8), hr, hc, Nat.zero_add]
      · have hlt : (s.resetVCC reading millis).1.resets < 2 ^ 8 := by
          rw [hr]; exact Nat.mod_lt _ (by norm_num)
        rw [ih (s.resetVCC reading millis).1 hlt, hr, hc]
        omega

/-! ## The evenly spaced NaN stream -/

theorem sub32_step (a I : Nat) (hI : I < 2 ^ 32) :
    sub32 ((a + I) % 2 ^ 32 % 2 ^ 32) (a % 2 ^ 32) = I := by
  unfold sub32
  omega

/-- Closed form of the object along the stream of `nanStream`, for an object
as the constructor leaves it in static storage, with no retry limit. -/
theorem nanStream_closed_form (pin I : Nat) (hI : I < 2 ^ 32) (m : Nat) :
    nanStream (HardReset.mk 0 pin 0 0 I 0 true) I (2 * m)
      = HardReset.mk (m % 2 ^ 8) pin (m % 2 ^ 8) 0 I (2 * m * I % 2 ^ 32) true ∧
    nanStream (HardReset.mk 0 pin 0 0 I 0 true) I (2 * m + 1)
      = HardReset.mk (m % 2 ^ 8) pin (m % 2 ^ 8) 0 I ((2 * m + 1) * I % 2 ^ 32) false := by
  have hodd : ∀ n : Nat,
      nanStream (HardReset.mk 0 pin 0 0 I 0 true) I (2 * n)
        = HardReset.mk (n % 2 ^ 8) pin (n % 2 ^ 8) 0 I (2 * n * I % 2 ^ 32) true →
      nanStream (HardReset.mk 0 pin 0 0 I 0 true) I (2 * n + 1)
        = HardReset.mk (n % 2 ^ 8) pin (n % 2 ^ 8) 0 I ((2 * n + 1) * I % 2 ^ 32) false := by
    intro n hn
    show ((nanStream (HardReset.mk 0 pin 0 0 I 0 true) I (2 * n)).resetVCC Reading.nan
      ((2 * n + 1) * I % 2 ^ 32)).1 = _
    rw [hn, resetVCC_of_switch_off _ Reading.nan _ rfl ?_ (Or.inl rfl) rfl]
    · simp only [Nat.mod_mod]
    · have hsplit : (2 * n + 1) * I = 2 * n * I + I := by ring
      show sub32 ((2 * n + 1) * I % 2 ^ 32 % 2 ^ 32) (2 * n * I % 2 ^ 32) ≥ I
      rw [hsplit, sub32_step _ I hI]
  induction m with
  | zero =>
    have h0 : nanStream (HardReset.mk 0 pin 0 0 I 0 true) I (2 * 0)
        = HardReset.mk (0 % 2 ^ 8) pin (0 % 2 ^ 8) 0 I (2 * 0 * I % 2 ^ 32) true := by
      simp [nanStream]
    exact ⟨h0, hodd 0 h0⟩
  | succ m ih =>
    have heven : nanStream (HardReset.mk 0 pin 0 0 I 0 true) I (2 * (m + 1))
        = HardReset.mk ((m + 1) % 2 ^ 8) pin ((m + 1) % 2 ^ 8) 0 I
            (2 * (m + 1) * I % 2 ^ 32) true := by
      show ((nanStream (HardReset.mk 0 pin 0 0 I 0 true) I (2 * m + 1)).resetVCC Reading.nan
        ((2 * m + 1 + 1) * I % 2 ^ 32)).1 = _
      rw [ih.2, resetVCC_of_switch_on _ Reading.nan _ rfl ?_ (Or.inl rfl) rfl]
      · have hmul : (2 * m + 1 + 1) * I = 2 * (m + 1) * I := by ring
        simp only [Nat.mod_mod, Nat.add_mod_mod, Nat.mod_add_mod, hmul]
      · have hsplit : (2 * m + 1 + 1) * I = (2 * m + 1) * I + I := by ring
        show sub32 ((2 * m + 1 + 1) * I % 2 ^ 32 % 2 ^ 32) ((2 * m + 1) * I % 2 ^ 32) ≥ I
        rw [hsplit, sub32_step _ I hI]
    exact ⟨heven, hodd (m + 1) heven⟩

/-- The effects along the stream of `nanStream`: odd calls switch the pin off,
even calls switch it on. -/
theorem nanStreamEffects_closed_form (pin I : Nat) (hI : I < 2 ^ 32) (n : Nat) :
    nanStreamEffects (HardReset.mk 0 pin 0 0 I 0 true) I (2 * n + 1)
      = [Effect.digitalWrite pin Level.LOW] ∧
    nanStreamEffects (HardReset.mk 0 pin 0 0 I 0 true) I (2 * n + 2)
      = [Effect.digitalWrite pin Level.HIGH] := by
  constructor
  · show ((nanStream (HardReset.mk 0 pin 0 0 I 0 true) I (2 * n)).resetVCC Reading.nan
      ((2 * n + 1) * I % 2 ^ 32)).2 = _
    rw [(nanStream_closed_form pin I hI n).1,
      resetVCC_of_switch_off _ Reading.nan _ rfl ?_ (Or.inl rfl) rfl]
    have hsplit : (2 * n + 1) * I = 2 * n * I + I := by ring
    show sub32 ((2 * n + 1) * I % 2 ^ 32 % 2 ^ 32) (2 * n * I % 2 ^ 32) ≥ I
    rw [hsplit, sub32_step _ I hI]
  · show ((nanStream (HardReset.mk 0 pin 0 0 I 0 true) I (2 * n + 1)).resetVCC Reading.nan
      ((2 * n + 2) * I % 2 ^ 32)).2 = _
    rw [(nanStream_closed_form pin I hI n).2,
      resetVCC_of_switch_on _ Reading.nan _ rfl ?_ (Or.inl rfl) rfl]
    have hsplit : (2 * n + 2) * I = (2 * n + 1) * I + I := by ring
    show sub32 ((2 * n + 2) * I % 2 ^ 32 % 2 ^ 32) ((2 * n + 1) * I % 2 ^ 32) ≥ I
    rw [hsplit, sub32_step _ I hI]

/-- The interval stored by the constructor fits 16 bits when the argument does. -/
theorem construct_off_interval_lt (try_count0 resets0 VCC_pin off_interval max_tries : Nat)
    (h16 : off_interval < 2 ^ 16) :
    (HardReset.construct try_count0 resets0 VCC_pin off_interval max_tries).1._off_interval
      < 2 ^ 16 := by
  show (if off_interval > MIN_INTERVAL then off_interval else 2100) < 2 ^ 16
  split
  · exact h16
  · norm_num

/-- The interval stored by the constructor is never below `MIN_INTERVAL`. -/
theorem construct_off_interval_ge (try_count0 resets0 VCC_pin off_interval max_tries : Nat) :
    MIN_INTERVAL ≤
      (HardReset.construct try_count0 resets0 VCC_pin off_interval max_tries).1._off_interval := by
  show MIN_INTERVAL ≤ (if off_interval > MIN_INTERVAL then off_interval else 2100)
  split
  · omega
  · unfold MIN_INTERVAL; norm_num

/-- One call keeps the bound on the retry counter. -/
theorem call_TriesBounded (s : HardReset) (c : Call) (hinv : s.TriesBounded) :
    (s.call c).1.TriesBounded := by
  unfold HardReset.TriesBounded at hinv ⊢
  cases c with
  | begin => exact hinv
  | resetVCC reading millis =>
    show (s.resetVCC reading millis).1._max_tries ≠ 0 →
      (s.resetVCC reading millis).1._try_count ≤ (s.resetVCC reading millis).1._max_tries
    cases reading with
    | nan =>
      rcases resetVCC_nan_cases s millis with h | ⟨_, _, h⟩ | ⟨_, _, h⟩ | ⟨havail, _, h⟩
      · rw [h]; exact hinv
      · rw [h]; exact hinv
      · rw [h]; exact hinv
      · rw [h]
        intro hmax
        have hmax2 : s._max_tries ≠ 0 := hmax
        show (s._try_count + 1) % 2 ^ 8 ≤ s._max_tries
        have hle : (s._try_count + 1) % 2 ^ 8 ≤ s._try_count + 1 := Nat.mod_le _ _
        omega
    | inf negative =>
      rw [resetVCC_of_valid s (Reading.inf negative) millis rfl]
      split
      · intro _; exact Nat.zero_le _
      · exact hinv
    | finite value =>
      rw [resetVCC_of_valid s (Reading.finite value) millis rfl]
      split
      · intro _; exact Nat.zero_le _
      · exact hinv

theorem run_TriesBounded (cs : List Call) : ∀ (s : HardReset),
    s.TriesBounded → (s.run cs).1.TriesBounded := by
  induction cs with
  | nil => intro s h; exact h
  | cons c cs ih =>
    intro s h
    show ((s.call c).1.run cs).1.TriesBounded
    exact ih _ (call_TriesBounded s c h)

theorem trace_append (xs ys : List Call) : ∀ (s : HardReset),
    s.trace (xs ++ ys) = s.trace xs ++ (s.run xs).1.trace ys := by
  induction xs with
  | nil => intro s; rfl
  | cons c cs ih =>
    intro s
    show s.call c :: (s.call c).1.trace (cs ++ ys)
      = s.call c :: ((s.call c).1.trace cs ++ ((s.call c).1.run cs).1.trace ys)
    rw [ih]

/-! ## Outcomes of one `resetVCC` call -/

/-- A `resetVCC` call either emits nothing and keeps `_VCC_on`, moving the
timer at most to the current clock value, or it emits exactly one write of the
level opposite to `_VCC_on`, flips `_VCC_on`, and sets the timer to the current
clock value; the second only happens with the test of line 94 satisfied. -/
theorem resetVCC_outcomes (s : HardReset) (reading : Reading) (millis : Nat) :
    ((s.resetVCC reading millis).2 = [] ∧
      (s.resetVCC reading millis).1._VCC_on = s._VCC_on ∧
      ((s.resetVCC reading millis).1._ms_last_reset = s._ms_last_reset ∨
        (s.resetVCC reading millis).1._ms_last_reset = millis % 2 ^ 32)) ∨
    ((s.resetVCC reading millis).2
        = [Effect.digitalWrite s._VCC_pin (levelOf (!s._VCC_on))] ∧
      (s.resetVCC reading millis).1._VCC_on = (!s._VCC_on) ∧
      (s.resetVCC reading millis).1._ms_last_reset = millis % 2 ^ 32 ∧
      sub32 (millis % 2 ^ 32) s._ms_last_reset ≥ s._off_interval) := by
  cases hr : isnan reading with
  | false =>
    rw [resetVCC_of_valid s reading millis hr]
    split <;> exact Or.inl ⟨rfl, rfl, Or.inl rfl⟩
  | true =>
    by_cases hgate : sub32 (millis % 2 ^ 32) s._ms_last_reset ≥ s._off_interval
    · by_cases havail : s._max_tries = 0 ∨ s._try_count < s._max_tries
      · by_cases hon : s._VCC_on = true
        · rw [resetVCC_of_switch_off s reading millis hr hgate havail hon]
          exact Or.inr ⟨by rw [hon]; rfl, by rw [hon]; rfl, rfl, hgate⟩
        · have hoff : s._VCC_on = false := by simpa using hon
          rw [resetVCC_of_switch_on s reading millis hr hgate havail hoff]
          exact Or.inr ⟨by rw [hoff]; rfl, by rw [hoff]; rfl, rfl, hgate⟩
      · have hmax : s._max_tries ≠ 0 := fun h => havail (Or.inl h)
        have hfull : ¬ s._try_count < s._max_tries := fun h => havail (Or.inr h)
        rw [resetVCC_of_no_tries s reading millis hr hgate hmax hfull]
        exact Or.inl ⟨rfl, rfl, Or.inr rfl⟩
    · rw [resetVCC_of_gate_closed s reading millis hr (by omega)]
      exact Or.inl ⟨rfl, rfl, Or.inl rfl⟩

/-! ## Writes and `_VCC_on` along a run of `resetVCC` calls -/

/-- With a retry limit, `_try_count` at the limit goes with `_VCC_on` true:
one call keeps this. -/
theorem call_exhausted_on (s : HardReset) (c : Call)
    (hinv : s._max_tries ≠ 0 → s._try_count = s._max_tries → s._VCC_on = true) :
    (s.call c).1._max_tries ≠ 0 → (s.call c).1._try_count = (s.call c).1._max_tries →
      (s.call c).1._VCC_on = true := by
  cases c with
  | begin => exact hinv
  | resetVCC reading millis =>
    show (s.resetVCC reading millis).1._max_tries ≠ 0 →
      (s.resetVCC reading millis).1._try_count = (s.resetVCC reading millis).1._max_tries →
      (s.resetVCC reading millis).1._VCC_on = true
    cases hr : isnan reading with
    | false =>
      rw [resetVCC_of_valid s reading millis hr]
      split
      · intro hmax hfull
        exact absurd hfull.symm hmax
      · exact hinv
    | true =>
      by_cases hgate : sub32 (millis % 2 ^ 32) s._ms_last_reset ≥ s._off_interval
      · by_cases havail : s._max_tries = 0 ∨ s._try_count < s._max_tries
        · by_cases hon : s._VCC_on = true
          · rw [resetVCC_of_switch_off s reading millis hr hgate havail hon]
            intro hmax hfull
            have hmax2 : s._max_tries ≠ 0 := hmax
            have hfull2 : s._try_count = s._max_tries := hfull
            omega
          · have hoff : s._VCC_on = false := by simpa using hon
            rw [resetVCC_of_switch_on s reading millis hr hgate havail hoff]
            intro _ _
            rfl
        · have hmax : s._max_tries ≠ 0 := fun h => havail (Or.inl h)
          have hfull : ¬ s._try_count < s._max_tries := fun h => havail (Or.inr h)
          rw [resetVCC_of_no_tries s reading millis hr hgate hmax hfull]
          exact hinv
      · rw [resetVCC_of_gate_closed s reading millis hr (by omega)]
        exact hinv

theorem run_exhausted_on (cs : List Call) : ∀ (s : HardReset),
    (s._max_tries ≠ 0 → s._try_count = s._max_tries → s._VCC_on = true) →
    (s.run cs).1._max_tries ≠ 0 → (s.run cs).1._try_count = (s.run cs).1._max_tries →
      (s.run cs).1._VCC_on = true := by
  induction cs with
  | nil => intro s h; exact h
  | cons c cs ih =>
    intro s h
    show ((s.call c).1.run cs).1._max_tries ≠ 0 →
      ((s.call c).1.run cs).1._try_count = ((s.call c).1.run cs).1._max_tries →
      ((s.call c).1.run cs).1._VCC_on = true
    exact ih _ (call_exhausted_on s c h)

theorem levelOf_not_ne (b : Bool) : levelOf b ≠ levelOf (!b) := by
  cases b <;> decide

/-- Along a run of `resetVCC` calls the levels written, with the level of the
initial `_VCC_on` put in front, change at every position and end in the level
of the final `_VCC_on`. -/
theorem resetCalls_alternate (rs : List (Reading × Nat)) : ∀ (s : HardReset),
    List.Chain' (fun a b => a ≠ b) (levelOf s._VCC_on :: writes (s.run (resetCalls rs)).2) ∧
    (levelOf s._VCC_on :: writes (s.run (resetCalls rs)).2).getLast?
      = some (levelOf (s.run (resetCalls rs)).1._VCC_on) := by
  induction rs with
  | nil =>
    intro s
    exact ⟨List.chain'_singleton _, rfl⟩
  | cons c rs ih =>
    intro s
    obtain ⟨hch, hlast⟩ := ih (s.resetVCC c.1 c.2).1
    show List.Chain' (fun a b => a ≠ b)
        (levelOf s._VCC_on ::
          writes ((s.resetVCC c.1 c.2).2 ++ ((s.resetVCC c.1 c.2).1.run (resetCalls rs)).2)) ∧
      (levelOf s._VCC_on ::
          writes ((s.resetVCC c.1 c.2).2
            ++ ((s.resetVCC c.1 c.2).1.run (resetCalls rs)).2)).getLast?
        = some (levelOf ((s.resetVCC c.1 c.2).1.run (resetCalls rs)).1._VCC_on)
    rw [writes_append]
    rcases resetVCC_outcomes s c.1 c.2 with ⟨he, hon, _⟩ | ⟨he, hon, _, _⟩
    · rw [he]
      rw [hon] at hch hlast
      exact ⟨hch, hlast⟩
    · rw [he]
      rw [hon] at hch hlast
      show List.Chain' (fun a b => a ≠ b)
          (levelOf s._VCC_on :: levelOf (!s._VCC_on)
            :: writes ((s.resetVCC c.1 c.2).1.run (resetCalls rs)).2) ∧
        (levelOf s._VCC_on :: levelOf (!s._VCC_on)
            :: writes ((s.resetVCC c.1 c.2).1.run (resetCalls rs)).2).getLast?
          = some (levelOf ((s.resetVCC c.1 c.2).1.run (resetCalls rs)).1._VCC_on)
      rw [List.chain'_cons, List.getLast?_cons_cons]
      exact ⟨⟨levelOf_not_ne _, hch⟩, hlast⟩

/-! ## Spacing of the writes -/

theorem resetVCC_writes_le_one (s : HardReset) (reading : Reading) (millis : Nat) :
    (writes (s.resetVCC reading millis).2).length ≤ 1 := by
  rcases resetVCC_outcomes s reading millis with ⟨he, _, _⟩ | ⟨he, _, _, _⟩
  · rw [he]; exact Nat.zero_le _
  · rw [he]; exact Nat.le_refl _

theorem trace_writes_le_one (rs : List (Reading × Nat)) : ∀ (s : HardReset),
    ∀ r ∈ s.trace (resetCalls rs), (writes r.2).length ≤ 1 := by
  induction rs with
  | nil => intro s r hr; cases hr
  | cons c rs ih =>
    intro s r hr
    have hr2 : r ∈ s.resetVCC c.1 c.2 :: (s.resetVCC c.1 c.2).1.trace (resetCalls rs) := hr
    rcases List.mem_cons.mp hr2 with h | h
    · rw [h]; exact resetVCC_writes_le_one s c.1 c.2
    · exact ih _ r h

/-- With clock values that do not decrease, stay below `2 ^ 32` and start at or
after `_ms_last_reset`, every write comes at least `_off_interval` after
`_ms_last_reset` and after every earlier write. -/
theorem writeTimes_spaced (rs : List (Reading × Nat)) : ∀ (s : HardReset),
    List.Pairwise (fun a b => a ≤ b) (rs.map Prod.snd) →
    (∀ c ∈ rs, c.2 < 2 ^ 32) →
    (∀ c ∈ rs, s._ms_last_reset ≤ c.2) →
    List.Pairwise (fun a b => a + s._off_interval ≤ b) (writeTimes s rs) ∧
    ∀ w ∈ writeTimes s rs, s._ms_last_reset + s._off_interval ≤ w := by
  induction rs with
  | nil =>
    intro s _ _ _
    exact ⟨List.Pairwise.nil, fun w hw => by cases hw⟩
  | cons c rs ih =>
    intro s hsorted hrange hstart
    have hsorted2 : (∀ t ∈ rs.map Prod.snd, c.2 ≤ t) ∧
        List.Pairwise (fun a b => a ≤ b) (rs.map Prod.snd) := by
      simpa only [List.map_cons, List.pairwise_cons] using hsorted
    have hc32 : c.2 < 2 ^ 32 := hrange c (List.mem_cons_self _ _)
    have hcle : s._ms_last_reset ≤ c.2 := hstart c (List.mem_cons_self _ _)
    have hmod : c.2 % 2 ^ 32 = c.2 := Nat.mod_eq_of_lt hc32
    have hoff : (s.resetVCC c.1 c.2).1._off_interval = s._off_interval :=
      (call_frame s (Call.resetVCC c.1 c.2)).1
    have hlater : ∀ c2 ∈ rs, c.2 ≤ c2.2 := fun c2 hc2 =>
      hsorted2.1 c2.2 (List.mem_map_of_mem Prod.snd hc2)
    rcases resetVCC_outcomes s c.1 c.2 with ⟨he, _, hl⟩ | ⟨he, _, hl, hgate⟩
    · have hl2 : s._ms_last_reset ≤ (s.resetVCC c.1 c.2).1._ms_last_reset ∧
          (s.resetVCC c.1 c.2).1._ms_last_reset ≤ c.2 := by
        rcases hl with h | h
        · rw [h]; exact ⟨Nat.le_refl _, hcle⟩
        · rw [h, hmod]; exact ⟨hcle, Nat.le_refl _⟩
      obtain ⟨hp, hw⟩ := ih (s.resetVCC c.1 c.2).1 hsorted2.2
        (fun c2 hc2 => hrange c2 (List.mem_cons_of_mem _ hc2))
        (fun c2 hc2 => Nat.le_trans hl2.2 (hlater c2 hc2))
      have hnw : ¬ (writes (s.resetVCC c.1 c.2).2 ≠ []) := by
        rw [he]; exact fun h => h rfl
      rw [hoff] at hp hw
      show List.Pairwise (fun a b => a + s._off_interval ≤ b)
          (if writes (s.resetVCC c.1 c.2).2 ≠ [] then
            c.2 :: writeTimes (s.resetVCC c.1 c.2).1 rs
          else writeTimes (s.resetVCC c.1 c.2).1 rs) ∧
        ∀ w ∈ (if writes (s.resetVCC c.1 c.2).2 ≠ [] then
            c.2 :: writeTimes (s.resetVCC c.1 c.2).1 rs
          else writeTimes (s.resetVCC c.1 c.2).1 rs), s._ms_last_reset + s._off_interval ≤ w
      rw [if_neg hnw]
      refine ⟨hp, fun w hwm => ?_⟩
      have := hw w hwm
      omega
    · have hl2 : (s.resetVCC c.1 c.2).1._ms_last_reset = c.2 := by rw [hl, hmod]
      have hfirst : s._ms_last_reset + s._off_interval ≤ c.2 := by
        unfold sub32 at hgate
        omega
      obtain ⟨hp, hw⟩ := ih (s.resetVCC c.1 c.2).1 hsorted2.2
        (fun c2 hc2 => hrange c2 (List.mem_cons_of_mem _ hc2))
        (fun c2 hc2 => by rw [hl2]; exact hlater c2 hc2)
      have hwr : writes (s.resetVCC c.1 c.2).2 ≠ [] := by
        rw [he]; exact List.cons_ne_nil _ _
      rw [hoff, hl2] at hw
      rw [hoff] at hp
      show List.Pairwise (fun a b => a + s._off_interval ≤ b)
          (if writes (s.resetVCC c.1 c.2).2 ≠ [] then
            c.2 :: writeTimes (s.resetVCC c.1 c.2).1 rs
          else writeTimes (s.resetVCC c.1 c.2).1 rs) ∧
        ∀ w ∈ (if writes (s.resetVCC c.1 c.2).2 ≠ [] then
            c.2 :: writeTimes (s.resetVCC c.1 c.2).1 rs
          else writeTimes (s.resetVCC c.1 c.2).1 rs), s._ms_last_reset + s._off_interval ≤ w
      rw [if_pos hwr]
      refine ⟨List.pairwise_cons.mpr ⟨hw, hp⟩, fun w hwm => ?_⟩
      rcases List.mem_cons.mp hwm with h | h
      · rw [h]; exact hfirst
      · have := hw w h
        omega

/-! ## Claim C1 -/

/-- Claim C1: for every object state, every reading that is not a NaN and every
timestamp, `resetVCC` emits no effect at all (so no write to the output line),
leaves `_try_count` equal to 0, and leaves `_VCC_on`, `_ms_last_reset`,
`resets`, `_off_interval` and `_max_tries` (and `_VCC_pin`) as they were. -/
theorem resetVCC_valid_reading (s : HardReset) (reading : Reading) (millis : Nat)
    (hvalid : isnan reading = false) :
    (s.resetVCC reading millis).2 = [] ∧
    (s.resetVCC reading millis).1._try_count = 0 ∧
    (s.resetVCC reading millis).1._VCC_on = s._VCC_on ∧
    (s.resetVCC reading millis).1._ms_last_reset = s._ms_last_reset ∧
    (s.resetVCC reading millis).1.resets = s.resets ∧
    (s.resetVCC reading millis).1._off_interval = s._off_interval ∧
    (s.resetVCC reading millis).1._max_tries = s._max_tries ∧
    (s.resetVCC reading millis).1._VCC_pin = s._VCC_pin := by
  rw [resetVCC_of_valid s reading millis hvalid]
  by_cases h : s._try_count > 0
  · rw [if_pos h]
    exact ⟨rfl, rfl, rfl, rfl, rfl, rfl, rfl, rfl⟩
  · rw [if_neg h]
    exact ⟨rfl, Nat.eq_zero_of_not_pos h, rfl, rfl, rfl, rfl, rfl, rfl⟩

/-- Witness of claim C1 at a finite reading with a streak in progress. -/
theorem resetVCC_valid_reading_witness :
    isnan (Reading.finite 21) = false ∧
    ((HardReset.mk 3 4 2 3 2100 5000 false).resetVCC (Reading.finite 21) 9000).2 = [] ∧
    ((HardReset.mk 3 4 2 3 2100 5000 false).resetVCC (Reading.finite 21) 9000).1._try_count = 0 :=
  ⟨rfl, (resetVCC_valid_reading (HardReset.mk 3 4 2 3 2100 5000 false) (Reading.finite 21) 9000 rfl).1,
    (resetVCC_valid_reading (HardReset.mk 3 4 2 3 2100 5000 false) (Reading.finite 21) 9000 rfl).2.1⟩

/-! ## Claim C2 -/

/-- Claim C2: for every object state, every NaN reading and every clock value
whose distance to `_ms_last_reset`, computed modulo `2 ^ 32`, is strictly below
`_off_interval`, `resetVCC` emits no effect and returns the object unchanged
(all seven members, among them `_try_count`, `resets`, `_ms_last_reset` and
`_VCC_on`). -/
theorem resetVCC_nan_before_interval (s : HardReset) (reading : Reading) (millis : Nat)
    (hnan : isnan reading = true)
    (hearly : sub32 (millis % 2 ^ 32) s._ms_last_reset < s._off_interval) :
    (s.resetVCC reading millis).2 = [] ∧ (s.resetVCC reading millis).1 = s := by
  rw [resetVCC_of_gate_closed s reading millis hnan hearly]
  exact ⟨rfl, rfl⟩

/-- Witness of claim C2: 2099 ms after the last toggle, with a 2100 ms interval. -/
theorem resetVCC_nan_before_interval_witness :
    isnan Reading.nan = true ∧
    sub32 (7099 % 2 ^ 32) (HardReset.mk 3 4 1 3 2100 5000 false)._ms_last_reset
      < (HardReset.mk 3 4 1 3 2100 5000 false)._off_interval ∧
    ((HardReset.mk 3 4 1 3 2100 5000 false).resetVCC Reading.nan 7099).2 = [] ∧
    ((HardReset.mk 3 4 1 3 2100 5000 false).resetVCC Reading.nan 7099).1
      = HardReset.mk 3 4 1 3 2100 5000 false :=
  ⟨rfl, by decide,
    resetVCC_nan_before_interval (HardReset.mk 3 4 1 3 2100 5000 false) Reading.nan 7099 rfl
      (by decide)⟩

/-! ## Claim C3 -/

/-- Claim C3: take an object with `_max_tries = N`, `0 < N < 2 ^ 8`, and
`_try_count = 0`, and any sequence of `resetVCC` calls that all receive a NaN,
at arbitrary clock values, split anywhere into `pre` and `post`. The whole
sequence writes `HIGH` at most `N` times; after `pre` the number of `HIGH`
writes so far equals `_try_count`; and if that number has reached `N`, the
calls of `post` emit no effect at all and leave `_try_count`, `resets` and
`_VCC_on` as they were after `pre`, whatever the clock values of `post`. -/
theorem nan_streak_bounded_by_max_tries (s : HardReset) (pre post : List Nat)
    (h8 : s._max_tries < 2 ^ 8) (hN : 0 < s._max_tries) (h0 : s._try_count = 0) :
    (writes (s.run (nanCalls (pre ++ post))).2).count Level.HIGH ≤ s._max_tries ∧
    (writes (s.run (nanCalls pre)).2).count Level.HIGH = (s.run (nanCalls pre)).1._try_count ∧
    ((writes (s.run (nanCalls pre)).2).count Level.HIGH = s._max_tries →
      ((s.run (nanCalls pre)).1.run (nanCalls post)).2 = [] ∧
      ((s.run (nanCalls pre)).1.run (nanCalls post)).1._try_count = s._max_tries ∧
      ((s.run (nanCalls pre)).1.run (nanCalls post)).1.resets = (s.run (nanCalls pre)).1.resets ∧
      ((s.run (nanCalls pre)).1.run (nanCalls post)).1._VCC_on
        = (s.run (nanCalls pre)).1._VCC_on) := by
  obtain ⟨_, hl, hc⟩ := nan_run_limited (pre ++ post) s h8 hN (by omega)
  obtain ⟨hm, _, hc2⟩ := nan_run_limited pre s h8 hN (by omega)
  refine ⟨by omega, by omega, ?_⟩
  intro hfull
  obtain ⟨he, ht, hr, hv⟩ :=
    nan_run_exhausted post (s.run (nanCalls pre)).1 (by omega) (by omega)
  exact ⟨he, by omega, hr, hv⟩

/-- Witness of claim C3: limit 1, reached after the calls at 2100 and 4200 ms;
the calls at 6300 and 9000 ms then do nothing. -/
theorem nan_streak_bounded_by_max_tries_witness :
    (HardReset.mk 0 4 0 1 2100 0 true)._max_tries < 2 ^ 8 ∧
    0 < (HardReset.mk 0 4 0 1 2100 0 true)._max_tries ∧
    (HardReset.mk 0 4 0 1 2100 0 true)._try_count = 0 ∧
    (writes ((HardReset.mk 0 4 0 1 2100 0 true).run (nanCalls [2100, 4200])).2).count Level.HIGH
      = 1 ∧
    (((HardReset.mk 0 4 0 1 2100 0 true).run (nanCalls [2100, 4200])).1.run
      (nanCalls [6300, 9000])).2 = [] :=
  ⟨by decide, by decide, rfl, by decide,
    ((nan_streak_bounded_by_max_tries (HardReset.mk 0 4 0 1 2100 0 true) [2100, 4200] [6300, 9000]
      (by decide) (by decide) rfl).2.2 (by decide)).1⟩

/-! ## Claim C4 -/

/-- Claim C4, evaluated where it fails: after the constructor and one NaN call
at 2100 ms the pin has been written `LOW` and `_VCC_on` is false; `begin()` then
writes `HIGH` to the pin, and `_VCC_on` is still false. -/
theorem begin_leaves_VCC_on_false :
    ((HardReset.construct 0 0 4 2100 0).1.resetVCC Reading.nan 2100).1._VCC_on = false ∧
    writes ((HardReset.construct 0 0 4 2100 0).1.resetVCC Reading.nan 2100).2 = [Level.LOW] ∧
    writes ((HardReset.construct 0 0 4 2100 0).1.resetVCC Reading.nan 2100).1.begin.2
      = [Level.HIGH] ∧
    ((HardReset.construct 0 0 4 2100 0).1.resetVCC Reading.nan 2100).1.begin.1._VCC_on
      = false := by
  decide

/-! ## Claim C5 -/

/-- Claim C5, evaluated where it fails: the constructor called with an
`off_interval` of 500, or of exactly 2001, stores 2100 (the default member
initialiser of the header), not `MIN_INTERVAL = 2001`; a value above 2001 is
stored as given. -/
theorem construct_keeps_header_default :
    (HardReset.construct 0 0 4 500 2).1._off_interval = 2100 ∧
    (HardReset.construct 0 0 4 2001 2).1._off_interval = 2100 ∧
    (HardReset.construct 0 0 4 500 2).1._off_interval ≠ MIN_INTERVAL ∧
    (HardReset.construct 0 0 4 2002 2).1._off_interval = 2002 := by
  decide

/-! ## Claim C6 -/

/-- Claim C6 as stated fails: with `resets = 255` and the pin off, a NaN call
with the interval elapsed steps the 8-bit counter to 0. The object is the one
reached from `construct(4, 2100, 0)` by 511 NaN calls spaced 2100 ms apart. -/
theorem resets_wraps_to_zero :
    nanStream (HardReset.construct 0 0 4 2100 0).1 2100 511
      = HardReset.mk 255 4 255 0 2100 1073100 false ∧
    (HardReset.mk 255 4 255 0 2100 1073100 false).InRange ∧
    ((HardReset.mk 255 4 255 0 2100 1073100 false).resetVCC Reading.nan 1075200).1.resets = 0 ∧
    ¬ ((HardReset.mk 255 4 255 0 2100 1073100 false).resets
        ≤ ((HardReset.mk 255 4 255 0 2100 1073100 false).resetVCC Reading.nan 1075200).1.resets) :=
  ⟨(nanStream_closed_form 4 2100 (by norm_num) 255).2, by decide, by decide, by decide⟩

/-- Claim C6, amended: for every object (with `resets` an 8-bit value), every
reading and every clock value, `resets` after `resetVCC` is below `resets`
before the call only when `resets` was 255 and the call writes `HIGH` (the
8-bit counter then wraps to 0); in every other case it is at least its value
before. `begin()` leaves `resets` unchanged. Over any sequence of calls, of any
length, the final `resets` is the initial one plus the number of `HIGH` writes
made by `resetVCC`, modulo `2 ^ 8`; so it has not decreased whenever that sum
is below `2 ^ 8`. -/
theorem resets_nondecreasing_until_wrap (s : HardReset) (reading : Reading) (millis : Nat)
    (cs : List Call) (h8 : s.resets < 2 ^ 8) :
    ((s.resetVCC reading millis).1.resets < s.resets ↔
      s.resets = 2 ^ 8 - 1 ∧ writes (s.resetVCC reading millis).2 = [Level.HIGH]) ∧
    s.begin.1.resets = s.resets ∧
    (s.run cs).1.resets = (s.resets + highWrites s cs) % 2 ^ 8 ∧
    (s.resets + highWrites s cs < 2 ^ 8 → s.resets ≤ (s.run cs).1.resets) := by
  refine ⟨?_, rfl, run_resets_eq cs s h8, ?_⟩
  · rcases resetVCC_resets_cases s reading millis with ⟨hr, _, hw⟩ | ⟨hr, _, hw⟩
    · rw [hr]
      exact ⟨fun h => absurd h (Nat.lt_irrefl _), fun h => absurd h.2 hw⟩
    · rw [hr]
      constructor
      · intro h
        exact ⟨by omega, hw⟩
      · intro h
        omega
  · intro hsum
    rw [run_resets_eq cs s h8, Nat.mod_eq_of_lt hsum]
    exact Nat.le_add_right _ _

/-- Witness of the amended claim C6: from `resets = 254`, one call that
completes a cycle followed by 300 NaN calls inside the interval. -/
theorem resets_nondecreasing_until_wrap_witness :
    (HardReset.mk 254 4 0 0 2100 0 false).resets < 2 ^ 8 ∧
    ((HardReset.mk 254 4 0 0 2100 0 false).run
      (nanCalls (2100 :: List.replicate 300 2200))).1.resets
      = ((HardReset.mk 254 4 0 0 2100 0 false).resets
          + highWrites (HardReset.mk 254 4 0 0 2100 0 false)
              (nanCalls (2100 :: List.replicate 300 2200))) % 2 ^ 8 ∧
    ¬ (((HardReset.mk 254 4 0 0 2100 0 false).resetVCC Reading.nan 2100).1.resets
        < (HardReset.mk 254 4 0 0 2100 0 false).resets) :=
  ⟨by decide,
    (resets_nondecreasing_until_wrap (HardReset.mk 254 4 0 0 2100 0 false) Reading.nan 2100
      (nanCalls (2100 :: List.replicate 300 2200)) (by decide)).2.2.1,
    by decide⟩

/-! ## Claim C7 -/

/-- Claim C7: the bound `_max_tries != 0 -> _try_count <= _max_tries` holds for
the object the constructor builds over storage with `_try_count = 0`, and
after any sequence of calls on that object; from any
object that satisfies it (with `_max_tries` an 8-bit value) it still holds after
`begin()`, after `resetVCC` with any reading and clock value, and after any
sequence of calls; and when `_max_tries != 0` a NaN call leaves `_try_count`
either unchanged or exactly one larger, so the 8-bit increment does not wrap. -/
theorem try_count_bounded_invariant (s : HardReset) (reading : Reading) (millis : Nat)
    (resets0 VCC_pin off_interval max_tries : Nat) (cs : List Call)
    (h8 : s._max_tries < 2 ^ 8) (hinv : s.TriesBounded) :
    (HardReset.construct 0 resets0 VCC_pin off_interval max_tries).1.TriesBounded ∧
    s.begin.1.TriesBounded ∧
    (s.resetVCC reading millis).1.TriesBounded ∧
    (s.run cs).1.TriesBounded ∧
    ((HardReset.construct 0 resets0 VCC_pin off_interval max_tries).1.run cs).1.TriesBounded ∧
    (s._max_tries ≠ 0 → isnan reading = true →
      (s.resetVCC reading millis).1._try_count = s._try_count ∨
      (s.resetVCC reading millis).1._try_count = s._try_count + 1) := by
  have hc : (HardReset.construct 0 resets0 VCC_pin off_interval max_tries).1.TriesBounded :=
    fun _ => Nat.zero_le _
  refine ⟨hc, hinv, call_TriesBounded s (Call.resetVCC reading millis) hinv,
    run_TriesBounded cs s hinv, run_TriesBounded cs _ hc, ?_⟩
  intro hmax hnan
  cases reading with
  | nan =>
    rcases resetVCC_nan_cases s millis with h | ⟨_, _, h⟩ | ⟨_, _, h⟩ | ⟨havail, _, h⟩
    · rw [h]; exact Or.inl rfl
    · rw [h]; exact Or.inl rfl
    · rw [h]; exact Or.inl rfl
    · rw [h]
      right
      show (s._try_count + 1) % 2 ^ 8 = s._try_count + 1
      exact Nat.mod_eq_of_lt (by omega)
  | inf negative => exact absurd hnan (by simp [isnan])
  | finite value => exact absurd hnan (by simp [isnan])

/-- Witness of claim C7: the last permitted retry, from 2 to the limit 3. -/
theorem try_count_bounded_invariant_witness :
    (HardReset.mk 7 4 2 3 2100 0 false)._max_tries < 2 ^ 8 ∧
    (HardReset.mk 7 4 2 3 2100 0 false).TriesBounded ∧
    ((HardReset.mk 7 4 2 3 2100 0 false).resetVCC Reading.nan 2100).1.TriesBounded ∧
    ((HardReset.mk 7 4 2 3 2100 0 false).resetVCC Reading.nan 2100).1._try_count = 3 :=
  ⟨by decide, by decide,
    (try_count_bounded_invariant (HardReset.mk 7 4 2 3 2100 0 false) Reading.nan 2100 0 4 2100 3 []
      (by decide) (by decide)).2.2.1,
    by decide⟩

/-! ## Claim C8 -/

/-- Claim C8: for every `off_interval` given to the constructor (and whatever
the other arguments and the storage hold) the stored `_off_interval` is at
least `MIN_INTERVAL = 2001`; no call (`begin`, `resetVCC`) changes
`_off_interval`; so after any sequence of calls on the constructed object
`_off_interval` is still at least 2001. -/
theorem off_interval_at_least_floor (try_count0 resets0 VCC_pin off_interval max_tries : Nat)
    (cs : List Call) :
    MIN_INTERVAL = 2001 ∧
    MIN_INTERVAL ≤
      (HardReset.construct try_count0 resets0 VCC_pin off_interval max_tries).1._off_interval ∧
    (∀ (s : HardReset) (c : Call), (s.call c).1._off_interval = s._off_interval) ∧
    MIN_INTERVAL ≤
      ((HardReset.construct try_count0 resets0 VCC_pin off_interval max_tries).1.run
        cs).1._off_interval := by
  refine ⟨rfl, construct_off_interval_ge _ _ _ _ _, fun s c => (call_frame s c).1, ?_⟩
  rw [run_off_interval]
  exact construct_off_interval_ge _ _ _ _ _

/-! ## Claim C9 -/

/-- Claim C9 as stated fails at `m = 256`: after 512 calls of the stream on the
object built by `construct(4, 2100, 0)` the 8-bit counter `resets` reads 0, not
256. -/
theorem nan_stream_resets_wraps :
    (nanStream (HardReset.construct 0 0 4 2100 0).1
      (HardReset.construct 0 0 4 2100 0).1._off_interval (2 * 256)).resets = 0 ∧
    (nanStream (HardReset.construct 0 0 4 2100 0).1
      (HardReset.construct 0 0 4 2100 0).1._off_interval (2 * 256)).resets ≠ 256 := by
  have h := (nanStream_closed_form 4 2100 (by norm_num) 256).1
  have hs : (nanStream (HardReset.construct 0 0 4 2100 0).1
      (HardReset.construct 0 0 4 2100 0).1._off_interval (2 * 256)).resets = 0 := by
    show (nanStream (HardReset.mk 0 4 0 0 2100 0 true) 2100 (2 * 256)).resets = 0
    rw [h]
    decide
  rw [hs]
  exact ⟨rfl, by decide⟩

/-- Claim C9, amended: for the object built by the constructor in zeroed
storage with `max_tries = 0` from a 16-bit `off_interval`, with `I` its stored
`_off_interval`, and NaN readings at the clock values `I, 2 * I, 3 * I, ...`
modulo `2 ^ 32`: for every `k >= 1` call number `k` emits exactly one write,
`LOW` when `k` is odd and `HIGH` when `k` is even; and for every `m` the field
`resets` after call number `2 * m` is `m` modulo `2 ^ 8`, one more (modulo
`2 ^ 8`) than after call number `2 * (m - 1)`. -/
theorem nan_stream_alternates (VCC_pin off_interval k m : Nat)
    (h16 : off_interval < 2 ^ 16) (hk : 1 ≤ k) :
    nanStreamEffects (HardReset.construct 0 0 VCC_pin off_interval 0).1
        (HardReset.construct 0 0 VCC_pin off_interval 0).1._off_interval k
      = [Effect.digitalWrite VCC_pin (if k % 2 = 1 then Level.LOW else Level.HIGH)] ∧
    (nanStream (HardReset.construct 0 0 VCC_pin off_interval 0).1
        (HardReset.construct 0 0 VCC_pin off_interval 0).1._off_interval (2 * m)).resets
      = m % 2 ^ 8 ∧
    (nanStream (HardReset.construct 0 0 VCC_pin off_interval 0).1
        (HardReset.construct 0 0 VCC_pin off_interval 0).1._off_interval (2 * (m + 1))).resets
      = ((nanStream (HardReset.construct 0 0 VCC_pin off_interval 0).1
          (HardReset.construct 0 0 VCC_pin off_interval 0).1._off_interval (2 * m)).resets + 1)
        % 2 ^ 8 := by
  have h32 : (HardReset.construct 0 0 VCC_pin off_interval 0).1._off_interval < 2 ^ 32 :=
    Nat.lt_trans (construct_off_interval_lt 0 0 VCC_pin off_interval 0 h16) (by norm_num)
  generalize hI : (HardReset.construct 0 0 VCC_pin off_interval 0).1._off_interval = I at h32 ⊢
  have hs : (HardReset.construct 0 0 VCC_pin off_interval 0).1
      = HardReset.mk 0 VCC_pin 0 0 I 0 true := by
    rw [← hI]; rfl
  rw [hs]
  refine ⟨?_, ?_, ?_⟩
  · rcases Nat.even_or_odd' k with ⟨n, hn | hn⟩
    · obtain ⟨j, rfl⟩ : ∃ j, n = j + 1 := ⟨n - 1, by omega⟩
      have hk2 : k = 2 * j + 2 := by omega
      have hpar : ¬ (k % 2 = 1) := by omega
      rw [if_neg hpar, hk2]
      exact (nanStreamEffects_closed_form VCC_pin I h32 j).2
    · have hpar : k % 2 = 1 := by omega
      rw [if_pos hpar, hn]
      exact (nanStreamEffects_closed_form VCC_pin I h32 n).1
  · rw [(nanStream_closed_form VCC_pin I h32 m).1]
  · rw [(nanStream_closed_form VCC_pin I h32 m).1, (nanStream_closed_form VCC_pin I h32 (m + 1)).1]
    show (m + 1) % 2 ^ 8 = (m % 2 ^ 8 + 1) % 2 ^ 8
    omega

/-- Witness of the amended claim C9: the third call on the object built by
`construct(4, 500, 0)` switches the pin off. -/
theorem nan_stream_alternates_witness :
    (500 : Nat) < 2 ^ 16 ∧ 1 ≤ 3 ∧
    nanStreamEffects (HardReset.construct 0 0 4 500 0).1
        (HardReset.construct 0 0 4 500 0).1._off_interval 3
      = [Effect.digitalWrite 4 (if 3 % 2 = 1 then Level.LOW else Level.HIGH)] :=
  ⟨by decide, by decide, (nan_stream_alternates 4 500 3 0 (by decide) (by decide)).1⟩

/-! ## Claim C10 -/

/-- Claim C10, evaluated where it fails: on the object built by
`construct(4, 2100, 0)`, a NaN call at 2100 ms followed by `begin()` writes
`LOW` and then `HIGH`; the most recent write is `HIGH` and `_VCC_on` is
false. -/
theorem VCC_on_differs_from_last_write :
    writes ((HardReset.construct 0 0 4 2100 0).1.run
      [Call.resetVCC Reading.nan 2100, Call.begin]).2 = [Level.LOW, Level.HIGH] ∧
    (writes ((HardReset.construct 0 0 4 2100 0).1.run
      [Call.resetVCC Reading.nan 2100, Call.begin]).2).getLast? = some Level.HIGH ∧
    ((HardReset.construct 0 0 4 2100 0).1.run
      [Call.resetVCC Reading.nan 2100, Call.begin]).1._VCC_on = false := by
  decide

/-! ## Claim C11 -/

/-- Claim C11: for every object (with `L` its `_ms_last_reset`) and every
elapsed duration `d < 2 ^ 32`, when the 32-bit clock reads `(L + d) mod 2 ^ 32`
the difference the test of line 94 computes, modulo `2 ^ 32`, is `d`, also when
the clock value is below `L` after an overflow. So the test holds exactly when
`d >= _off_interval`: on a NaN, if `d` is below `_off_interval` the call does
nothing, and otherwise it restarts the timer at the clock value. -/
theorem elapsed_time_across_overflow (s : HardReset) (reading : Reading) (d : Nat)
    (hd : d < 2 ^ 32) (hnan : isnan reading = true) :
    sub32 ((s._ms_last_reset + d) % 2 ^ 32 % 2 ^ 32) s._ms_last_reset = d ∧
    (sub32 ((s._ms_last_reset + d) % 2 ^ 32 % 2 ^ 32) s._ms_last_reset ≥ s._off_interval
      ↔ d ≥ s._off_interval) ∧
    (d < s._off_interval →
      s.resetVCC reading ((s._ms_last_reset + d) % 2 ^ 32) = (s, [])) ∧
    (d ≥ s._off_interval →
      (s.resetVCC reading ((s._ms_last_reset + d) % 2 ^ 32)).1._ms_last_reset
        = (s._ms_last_reset + d) % 2 ^ 32) := by
  have hsub : sub32 ((s._ms_last_reset + d) % 2 ^ 32 % 2 ^ 32) s._ms_last_reset = d := by
    unfold sub32
    omega
  refine ⟨hsub, by rw [hsub], ?_, ?_⟩
  · intro hlt
    exact resetVCC_of_gate_closed s reading _ hnan (by rw [hsub]; exact hlt)
  · intro hge
    have hgate : sub32 ((s._ms_last_reset + d) % 2 ^ 32 % 2 ^ 32) s._ms_last_reset
        ≥ s._off_interval := by rw [hsub]; exact hge
    by_cases havail : s._max_tries = 0 ∨ s._try_count < s._max_tries
    · by_cases hon : s._VCC_on = true
      · rw [resetVCC_of_switch_off s reading _ hnan hgate havail hon]
        exact Nat.mod_mod _ _
      · have hoff : s._VCC_on = false := by simpa using hon
        rw [resetVCC_of_switch_on s reading _ hnan hgate havail hoff]
        exact Nat.mod_mod _ _
    · have hmax : s._max_tries ≠ 0 := fun h => havail (Or.inl h)
      have hfull : ¬ s._try_count < s._max_tries := fun h => havail (Or.inr h)
      rw [resetVCC_of_no_tries s reading _ hnan hgate hmax hfull]
      exact Nat.mod_mod _ _

/-- Witness of claim C11: the last toggle was 1000 ms before the clock
overflowed and the NaN arrives 1100 ms after it, 2100 ms in all. -/
theorem elapsed_time_across_overflow_witness :
    (2100 : Nat) < 2 ^ 32 ∧ isnan Reading.nan = true ∧
    ((HardReset.mk 0 4 0 0 2100 4294966296 true)._ms_last_reset + 2100) % 2 ^ 32 = 1100 ∧
    sub32 (((HardReset.mk 0 4 0 0 2100 4294966296 true)._ms_last_reset + 2100) % 2 ^ 32 % 2 ^ 32)
      (HardReset.mk 0 4 0 0 2100 4294966296 true)._ms_last_reset = 2100 :=
  ⟨by decide, rfl, by decide,
    (elapsed_time_across_overflow (HardReset.mk 0 4 0 0 2100 4294966296 true) Reading.nan 2100
      (by decide) rfl).1⟩

/-! ## Claim C12 -/

/-- Claim C12, evaluated where it fails. The constructor assigns neither
`_try_count` nor `resets`, and the header gives them no initialiser, so an
object that is not in zeroed storage starts with whatever the storage holds.
Built by `construct(4, 500, 2)` over bytes of value 170, the scenario (with the
reading 21.5 at 13000 ms) writes nothing in its first seven calls and `resets`
reads 170 throughout; built over `_try_count = 1`, `resets = 0`, only one cycle
is completed and the NaN at `3 * I` writes nothing. Each entry lists the levels
a call writes, then `_try_count`, then `resets` after it. -/
theorem scenario_fails_in_unzeroed_storage :
    ((HardReset.construct 170 170 4 500 2).1.trace
        (scenarioCalls (HardReset.construct 170 170 4 500 2).1._off_interval
          (Reading.finite (43 / 2)) 13000)).map
        (fun r => (writes r.2, r.1._try_count, r.1.resets))
      = [([], 170, 170), ([], 170, 170), ([], 170, 170), ([], 170, 170), ([], 170, 170),
         ([], 170, 170), ([], 170, 170), ([], 0, 170), ([Level.LOW], 0, 170)] ∧
    ((HardReset.construct 1 0 4 500 2).1.trace
        (scenarioCalls (HardReset.construct 1 0 4 500 2).1._off_interval
          (Reading.finite (43 / 2)) 13000)).map
        (fun r => (writes r.2, r.1._try_count, r.1.resets))
      = [([], 1, 0), ([Level.LOW], 1, 0), ([Level.HIGH], 2, 1), ([], 2, 1), ([], 2, 1),
         ([], 2, 1), ([], 2, 1), ([], 0, 1), ([Level.LOW], 0, 1)] := by
  constructor <;> decide

/-- The scenario with two retries in zeroed storage. On the object built by
`construct(4, 500, 2)` with `_try_count = 0` and `resets = 0` at the start,
whose `_off_interval` is `I = 2100`, the scenario runs as follows, listing for
each call the levels it writes, then `_try_count`, then `resets` after it. NaN
at 0: nothing (the object is unchanged); NaN at `I`: `LOW`, 0, 0; NaN at
`2 * I`: `HIGH`, 1, 1; NaN at `3 * I`: `LOW`, 1, 1; NaN at `4 * I`: `HIGH`, 2, 2;
NaN at `5 * I` and `6 * I`: nothing, 2, 2; any reading that is not a NaN, at
any clock value: nothing, 0, 2; NaN at `7 * I`: `LOW`, 0, 2. -/
theorem scenario_two_tries (reading : Reading) (millis : Nat)
    (hvalid : isnan reading = false) :
    (HardReset.construct 0 0 4 500 2).1._off_interval = 2100 ∧
    (HardReset.construct 0 0 4 500 2).1.resetVCC Reading.nan 0
      = ((HardReset.construct 0 0 4 500 2).1, []) ∧
    ((HardReset.construct 0 0 4 500 2).1.trace
        (scenarioCalls (HardReset.construct 0 0 4 500 2).1._off_interval reading millis)).map
        (fun r => (writes r.2, r.1._try_count, r.1.resets))
      = [([], 0, 0), ([Level.LOW], 0, 0), ([Level.HIGH], 1, 1), ([Level.LOW], 1, 1),
         ([Level.HIGH], 2, 2), ([], 2, 2), ([], 2, 2), ([], 0, 2), ([Level.LOW], 0, 2)] := by
  refine ⟨by decide, by decide, ?_⟩
  have hI : (HardReset.construct 0 0 4 500 2).1._off_interval = 2100 := by decide
  rw [hI, scenarioCalls, trace_append, List.map_append]
  have hhead : ((HardReset.construct 0 0 4 500 2).1.trace
      (nanCalls [0, 2100, 2 * 2100, 3 * 2100, 4 * 2100, 5 * 2100, 6 * 2100])).map
        (fun r => (writes r.2, r.1._try_count, r.1.resets))
      = [([], 0, 0), ([Level.LOW], 0, 0), ([Level.HIGH], 1, 1), ([Level.LOW], 1, 1),
         ([Level.HIGH], 2, 2), ([], 2, 2), ([], 2, 2)] := by decide
  have hstate : ((HardReset.construct 0 0 4 500 2).1.run
      (nanCalls [0, 2100, 2 * 2100, 3 * 2100, 4 * 2100, 5 * 2100, 6 * 2100])).1
      = HardReset.mk 2 4 2 2 2100 12600 true := by decide
  have hrecover : (HardReset.mk 2 4 2 2 2100 12600 true).resetVCC reading millis
      = (HardReset.mk 2 4 0 2 2100 12600 true, []) := by
    rw [resetVCC_of_valid _ reading millis hvalid]
    rfl
  have hlast : (HardReset.mk 2 4 0 2 2100 12600 true).resetVCC Reading.nan (7 * 2100)
      = (HardReset.mk 2 4 0 2 2100 14700 false, [Effect.digitalWrite 4 Level.LOW]) := by
    decide
  rw [hhead, hstate]
  show _ ++ List.map _
    [(HardReset.mk 2 4 2 2 2100 12600 true).resetVCC reading millis,
      ((HardReset.mk 2 4 2 2 2100 12600 true).resetVCC reading millis).1.resetVCC Reading.nan
        (7 * 2100)] = _
  rw [hrecover, hlast]
  rfl

/-- The scenario in zeroed storage with the reading 21.5 arriving at 13000 ms. -/
theorem scenario_two_tries_witness :
    isnan (Reading.finite (43 / 2)) = false ∧
    ((HardReset.construct 0 0 4 500 2).1.trace
        (scenarioCalls (HardReset.construct 0 0 4 500 2).1._off_interval
          (Reading.finite (43 / 2)) 13000)).map
        (fun r => (writes r.2, r.1._try_count, r.1.resets))
      = [([], 0, 0), ([Level.LOW], 0, 0), ([Level.HIGH], 1, 1), ([Level.LOW], 1, 1),
         ([Level.HIGH], 2, 2), ([], 2, 2), ([], 2, 2), ([], 0, 2), ([Level.LOW], 0, 2)] :=
  ⟨rfl, (scenario_two_tries (Reading.finite (43 / 2)) 13000 rfl).2.2⟩

/-! ## Claim C13 -/

/-- Claim C13: for every object, NaN reading and clock value with the test of
line 94 satisfied and a try available (`_max_tries = 0` or
`_try_count < _max_tries`): if `_VCC_on` is true the call emits exactly one
write, of `LOW`, sets `_VCC_on` to false and leaves `_try_count` and `resets`
unchanged; if `_VCC_on` is false it emits exactly one write, of `HIGH`, sets
`_VCC_on` to true and steps `_try_count` and `resets` by 1 modulo `2 ^ 8`. -/
theorem resetVCC_toggle (s : HardReset) (reading : Reading) (millis : Nat)
    (hnan : isnan reading = true)
    (hgate : sub32 (millis % 2 ^ 32) s._ms_last_reset ≥ s._off_interval)
    (havail : s._max_tries = 0 ∨ s._try_count < s._max_tries) :
    (s._VCC_on = true →
      (s.resetVCC reading millis).2 = [Effect.digitalWrite s._VCC_pin Level.LOW] ∧
      (s.resetVCC reading millis).1._VCC_on = false ∧
      (s.resetVCC reading millis).1._try_count = s._try_count ∧
      (s.resetVCC reading millis).1.resets = s.resets) ∧
    (s._VCC_on = false →
      (s.resetVCC reading millis).2 = [Effect.digitalWrite s._VCC_pin Level.HIGH] ∧
      (s.resetVCC reading millis).1._VCC_on = true ∧
      (s.resetVCC reading millis).1._try_count = (s._try_count + 1) % 2 ^ 8 ∧
      (s.resetVCC reading millis).1.resets = (s.resets + 1) % 2 ^ 8) := by
  constructor
  · intro hon
    rw [resetVCC_of_switch_off s reading millis hnan hgate havail hon]
    exact ⟨rfl, rfl, rfl, rfl⟩
  · intro hoff
    rw [resetVCC_of_switch_on s reading millis hnan hgate havail hoff]
    exact ⟨rfl, rfl, rfl, rfl⟩

/-- Witness of claim C13: the pin is off, one of three tries is used. -/
theorem resetVCC_toggle_witness :
    isnan Reading.nan = true ∧
    sub32 (9000 % 2 ^ 32) (HardReset.mk 7 4 1 3 2100 5000 false)._ms_last_reset
      ≥ (HardReset.mk 7 4 1 3 2100 5000 false)._off_interval ∧
    ((HardReset.mk 7 4 1 3 2100 5000 false).resetVCC Reading.nan 9000).2
      = [Effect.digitalWrite 4 Level.HIGH] ∧
    ((HardReset.mk 7 4 1 3 2100 5000 false).resetVCC Reading.nan 9000).1._try_count = 2 :=
  ⟨rfl, by decide,
    ((resetVCC_toggle (HardReset.mk 7 4 1 3 2100 5000 false) Reading.nan 9000 rfl (by decide)
      (Or.inr (by decide))).2 rfl).1,
    by decide⟩

/-! ## Claim C14 -/

/-- Claim C14: for every object, NaN reading and clock value with the test of
line 94 satisfied, `_ms_last_reset` after `resetVCC` is the clock value (the
32-bit value of `millis()`), whether or not the pin was toggled. In particular
with `_max_tries != 0` and `_try_count = _max_tries` the call emits nothing,
leaves `_try_count`, `resets` and `_VCC_on` unchanged, and still sets
`_ms_last_reset` to the clock value. -/
theorem timer_restarts_when_gate_opens (s : HardReset) (reading : Reading) (millis : Nat)
    (hnan : isnan reading = true)
    (hgate : sub32 (millis % 2 ^ 32) s._ms_last_reset ≥ s._off_interval) :
    (s.resetVCC reading millis).1._ms_last_reset = millis % 2 ^ 32 ∧
    (millis < 2 ^ 32 → (s.resetVCC reading millis).1._ms_last_reset = millis) ∧
    (s._max_tries ≠ 0 → s._try_count = s._max_tries →
      (s.resetVCC reading millis).2 = [] ∧
      (s.resetVCC reading millis).1._try_count = s._try_count ∧
      (s.resetVCC reading millis).1.resets = s.resets ∧
      (s.resetVCC reading millis).1._VCC_on = s._VCC_on ∧
      (s.resetVCC reading millis).1._ms_last_reset = millis % 2 ^ 32) := by
  have hlast : (s.resetVCC reading millis).1._ms_last_reset = millis % 2 ^ 32 := by
    by_cases havail : s._max_tries = 0 ∨ s._try_count < s._max_tries
    · by_cases hon : s._VCC_on = true
      · rw [resetVCC_of_switch_off s reading millis hnan hgate havail hon]
      · have hoff : s._VCC_on = false := by simpa using hon
        rw [resetVCC_of_switch_on s reading millis hnan hgate havail hoff]
    · have hmax : s._max_tries ≠ 0 := fun h => havail (Or.inl h)
      have hfull : ¬ s._try_count < s._max_tries := fun h => havail (Or.inr h)
      rw [resetVCC_of_no_tries s reading millis hnan hgate hmax hfull]
  refine ⟨hlast, fun hlt => by rw [hlast, Nat.mod_eq_of_lt hlt], ?_⟩
  intro hmax hfull
  rw [resetVCC_of_no_tries s reading millis hnan hgate hmax (by omega)]
  exact ⟨rfl, rfl, rfl, rfl, rfl⟩

/-- Witness of claim C14: both tries are used up and the interval has elapsed. -/
theorem timer_restarts_when_gate_opens_witness :
    isnan Reading.nan = true ∧
    sub32 (10500 % 2 ^ 32) (HardReset.mk 2 4 2 2 2100 8400 true)._ms_last_reset
      ≥ (HardReset.mk 2 4 2 2 2100 8400 true)._off_interval ∧
    ((HardReset.mk 2 4 2 2 2100 8400 true).resetVCC Reading.nan 10500).1._ms_last_reset
      = 10500 % 2 ^ 32 ∧
    ((HardReset.mk 2 4 2 2 2100 8400 true).resetVCC Reading.nan 10500).2 = [] :=
  ⟨rfl, by decide,
    (timer_restarts_when_gate_opens (HardReset.mk 2 4 2 2 2100 8400 true) Reading.nan 10500 rfl
      (by decide)).1,
    ((timer_restarts_when_gate_opens (HardReset.mk 2 4 2 2 2100 8400 true) Reading.nan 10500 rfl
      (by decide)).2.2 (by decide) rfl).1⟩

/-! ## Claim C15 -/

/-- Claim C15 as stated fails: after `construct(4, 2100, 0)` and a NaN at
2100 ms the pin is off (`_VCC_on` false); a call with the reading 21 at 3000 ms
writes nothing and leaves `_VCC_on` false. -/
theorem valid_reading_leaves_pin_off :
    ((HardReset.construct 0 0 4 2100 0).1.resetVCC Reading.nan 2100).1._VCC_on = false ∧
    (((HardReset.construct 0 0 4 2100 0).1.resetVCC Reading.nan 2100).1.resetVCC
      (Reading.finite 21) 3000).2 = [] ∧
    ¬ ((((HardReset.construct 0 0 4 2100 0).1.resetVCC Reading.nan 2100).1.resetVCC
      (Reading.finite 21) 3000).1._VCC_on = true) := by
  decide

/-- Claim C15, amended: for every object, a `resetVCC` call with a reading that
is not a NaN leaves `_try_count` at 0 and `_VCC_on` as it was, without a write;
so from an object with `_VCC_on` true the call ends with `_VCC_on` true and
`_try_count = 0`, and from one with `_VCC_on` false it ends with `_VCC_on`
false and `_try_count = 0`. -/
theorem valid_reading_clears_streak_only (s : HardReset) (reading : Reading) (millis : Nat)
    (hvalid : isnan reading = false) :
    (s.resetVCC reading millis).2 = [] ∧
    (s.resetVCC reading millis).1._try_count = 0 ∧
    (s.resetVCC reading millis).1._VCC_on = s._VCC_on ∧
    (s._VCC_on = true →
      (s.resetVCC reading millis).1._VCC_on = true ∧
      (s.resetVCC reading millis).1._try_count = 0) := by
  rw [resetVCC_of_valid s reading millis hvalid]
  by_cases h : s._try_count > 0
  · rw [if_pos h]
    exact ⟨rfl, rfl, rfl, fun hon => ⟨hon, rfl⟩⟩
  · rw [if_neg h]
    exact ⟨rfl, Nat.eq_zero_of_not_pos h, rfl, fun hon => ⟨hon, Nat.eq_zero_of_not_pos h⟩⟩

/-- Witness of the amended claim C15: a valid reading after one completed retry. -/
theorem valid_reading_clears_streak_only_witness :
    isnan (Reading.inf false) = false ∧
    ((HardReset.mk 1 4 1 3 2100 4200 true).resetVCC (Reading.inf false) 5000).1._VCC_on = true ∧
    ((HardReset.mk 1 4 1 3 2100 4200 true).resetVCC (Reading.inf false) 5000).1._try_count = 0 :=
  ⟨rfl,
    (valid_reading_clears_streak_only (HardReset.mk 1 4 1 3 2100 4200 true) (Reading.inf false)
      5000 rfl).2.2.2 rfl⟩

/-! ## Claim C16 -/

/-- Claim C16: take any object and any sequence of `resetVCC` calls, with any
mix of readings, whose clock values do not decrease, stay below `2 ^ 32` (no
overflow) and whose first clock value is not before `_ms_last_reset`. Then each
call of the sequence writes to the pin at most once, and of any two calls that
write, the later one has a clock value at least `_off_interval` above the
earlier one. -/
theorem writes_at_least_off_interval_apart (s : HardReset) (rs : List (Reading × Nat))
    (hsorted : List.Pairwise (fun a b => a ≤ b) (rs.map Prod.snd))
    (hrange : ∀ c ∈ rs, c.2 < 2 ^ 32)
    (hstart : ∀ c ∈ rs.head?, s._ms_last_reset ≤ c.2) :
    (∀ r ∈ s.trace (resetCalls rs), (writes r.2).length ≤ 1) ∧
    List.Pairwise (fun a b => a + s._off_interval ≤ b) (writeTimes s rs) := by
  refine ⟨trace_writes_le_one rs s, (writeTimes_spaced rs s hsorted hrange ?_).1⟩
  cases rs with
  | nil => intro c hc; cases hc
  | cons c0 rs0 =>
    have h0 : s._ms_last_reset ≤ c0.2 := hstart c0 rfl
    have hs : ∀ t ∈ rs0.map Prod.snd, c0.2 ≤ t := by
      have := hsorted
      simp only [List.map_cons, List.pairwise_cons] at this
      exact this.1
    intro c hc
    rcases List.mem_cons.mp hc with h | h
    · rw [h]; exact h0
    · exact Nat.le_trans h0 (hs c.2 (List.mem_map_of_mem Prod.snd h))

/-- Witness of claim C16: NaN readings at 2100, 3000 and 4200 ms with a valid
reading at 4000 ms in between; the calls at 2100 and 4200 ms write. -/
theorem writes_at_least_off_interval_apart_witness :
    writeTimes (HardReset.mk 0 4 0 0 2100 0 true)
      [(Reading.nan, 2100), (Reading.nan, 3000), (Reading.finite 20, 4000), (Reading.nan, 4200)]
      = [2100, 4200] ∧
    List.Pairwise (fun a b => a + (HardReset.mk 0 4 0 0 2100 0 true)._off_interval ≤ b)
      (writeTimes (HardReset.mk 0 4 0 0 2100 0 true)
        [(Reading.nan, 2100), (Reading.nan, 3000), (Reading.finite 20, 4000),
          (Reading.nan, 4200)]) :=
  ⟨by decide,
    (writes_at_least_off_interval_apart (HardReset.mk 0 4 0 0 2100 0 true)
      [(Reading.nan, 2100), (Reading.nan, 3000), (Reading.finite 20, 4000), (Reading.nan, 4200)]
      (by decide) (by decide) (by intro c hc; cases hc; decide)).2⟩

/-! ## Claim C17 -/

/-- Claim C17: in every object reached from the constructed one (`_VCC_on`
true, `_try_count = 0`) by any sequence of calls, with any readings and clock
values (calls of `begin()` may be mixed in), if `_max_tries != 0` and
`_try_count = _max_tries` then `_VCC_on` is true. -/
theorem exhausted_retries_leave_pin_on (resets0 VCC_pin off_interval max_tries : Nat)
    (cs : List Call)
    (hmax : ((HardReset.construct 0 resets0 VCC_pin off_interval max_tries).1.run
      cs).1._max_tries ≠ 0)
    (hfull : ((HardReset.construct 0 resets0 VCC_pin off_interval max_tries).1.run
        cs).1._try_count
      = ((HardReset.construct 0 resets0 VCC_pin off_interval max_tries).1.run cs).1._max_tries) :
    ((HardReset.construct 0 resets0 VCC_pin off_interval max_tries).1.run cs).1._VCC_on
      = true :=
  run_exhausted_on cs (HardReset.construct 0 resets0 VCC_pin off_interval max_tries).1
    (fun _ _ => rfl) hmax hfull

/-- Witness of claim C17: one retry allowed, used up by the calls at 2100 and
4200 ms, with two more NaN calls after it. -/
theorem exhausted_retries_leave_pin_on_witness :
    ((HardReset.construct 0 0 4 2100 1).1.run
      (nanCalls [2100, 4200, 6300, 6400])).1._max_tries ≠ 0 ∧
    ((HardReset.construct 0 0 4 2100 1).1.run (nanCalls [2100, 4200, 6300, 6400])).1._try_count
      = ((HardReset.construct 0 0 4 2100 1).1.run
          (nanCalls [2100, 4200, 6300, 6400])).1._max_tries ∧
    ((HardReset.construct 0 0 4 2100 1).1.run (nanCalls [2100, 4200, 6300, 6400])).1._VCC_on
      = true :=
  ⟨by decide, by decide,
    exhausted_retries_leave_pin_on 0 4 2100 1 (nanCalls [2100, 4200, 6300, 6400]) (by decide)
      (by decide)⟩

/-! ## Claim C18 -/

/-- Claim C18: a single `resetVCC` call either writes nothing and keeps
`_VCC_on`, or writes exactly the level opposite to `_VCC_on` before the call
and leaves `_VCC_on` equal to the level written. Hence, over every sequence of
`resetVCC` calls, consecutive writes differ, the first write (if any) is
opposite to the initial `_VCC_on` (`LOW` from the constructed object), and once
something was written `_VCC_on` stands for the last level written. -/
theorem resetVCC_writes_alternate (s : HardReset) (reading : Reading) (millis : Nat)
    (rs : List (Reading × Nat)) :
    (((s.resetVCC reading millis).2 = [] ∧
        (s.resetVCC reading millis).1._VCC_on = s._VCC_on) ∨
      ((s.resetVCC reading millis).2
          = [Effect.digitalWrite s._VCC_pin (levelOf (!s._VCC_on))] ∧
        levelOf (s.resetVCC reading millis).1._VCC_on = levelOf (!s._VCC_on))) ∧
    List.Chain' (fun a b => a ≠ b) (writes (s.run (resetCalls rs)).2) ∧
    (∀ first ∈ (writes (s.run (resetCalls rs)).2).head?, first = levelOf (!s._VCC_on)) ∧
    (writes (s.run (resetCalls rs)).2 ≠ [] →
      (writes (s.run (resetCalls rs)).2).getLast?
        = some (levelOf (s.run (resetCalls rs)).1._VCC_on)) := by
  obtain ⟨hch, hlast⟩ := resetCalls_alternate rs s
  refine ⟨?_, ?_, ?_, ?_⟩
  · rcases resetVCC_outcomes s reading millis with ⟨he, hon, _⟩ | ⟨he, hon, _, _⟩
    · exact Or.inl ⟨he, hon⟩
    · exact Or.inr ⟨he, by rw [hon]⟩
  · exact hch.tail
  · intro first hfirst
    cases hw : writes (s.run (resetCalls rs)).2 with
    | nil => rw [hw] at hfirst; cases hfirst
    | cons w ws =>
      rw [hw] at hfirst hch
      have hfw : first = w := by
        simpa using hfirst.symm
      have hne : levelOf s._VCC_on ≠ w := (List.chain'_cons.mp hch).1
      rw [hfw]
      cases hb : s._VCC_on <;> rw [hb] at hne <;> cases w <;> first | rfl | exact absurd rfl hne
  · intro hne
    cases hw : writes (s.run (resetCalls rs)).2 with
    | nil => exact absurd hw hne
    | cons w ws =>
      rw [hw, List.getLast?_cons_cons] at hlast
      exact hlast

/-- Witness of claim C18: three NaN calls and one valid reading from the
constructed object write `LOW`, `HIGH`, `LOW`, and `_VCC_on` ends false. -/
theorem resetVCC_writes_alternate_witness :
    writes ((HardReset.construct 0 0 4 2100 0).1.run (resetCalls
      [(Reading.nan, 2100), (Reading.nan, 4200), (Reading.finite 20, 5000),
        (Reading.nan, 6300)])).2 = [Level.LOW, Level.HIGH, Level.LOW] ∧
    (writes ((HardReset.construct 0 0 4 2100 0).1.run (resetCalls
      [(Reading.nan, 2100), (Reading.nan, 4200), (Reading.finite 20, 5000),
        (Reading.nan, 6300)])).2).getLast?
      = some (levelOf ((HardReset.construct 0 0 4 2100 0).1.run (resetCalls
          [(Reading.nan, 2100), (Reading.nan, 4200), (Reading.finite 20, 5000),
            (Reading.nan, 6300)])).1._VCC_on) :=
  ⟨by decide,
    (resetVCC_writes_alternate (HardReset.construct 0 0 4 2100 0).1 Reading.nan 2100
      [(Reading.nan, 2100), (Reading.nan, 4200), (Reading.finite 20, 5000),
        (Reading.nan, 6300)]).2.2.2 (by decide)⟩

end HardResetDHT
